import Mathlib

/-!
Verification of the search pipeline of the `where` extension.

The TypeScript sources are embedded shallowly: JS strings become `List Char`,
the JS regexes of `extension.ts` / `search.ts` become executable scanners with
ECMAScript semantics (`.` does not match line terminators, negated classes do,
`\d` is `[0-9]`), JS `Map`s (which iterate in insertion order) become
association lists, and the three external processes of `executeSearch` become
explicit inputs: the ripgrep invocation as its exit code / stdout / stderr, and
the two fzf invocations as functions from the stdin payload to an exit code,
stdout and stderr.
-/

namespace Where

/-- The ESC character (0x1B) that starts an ANSI escape sequence. -/
def escChar : Char := '\x1b'

/-- The ECMAScript whitespace set used by `String.prototype.trim`:
tab, LF, VT, FF, CR, space, NBSP, and the Unicode space separators,
line/paragraph separators and the BOM. -/
def isJsWhitespace (c : Char) : Bool :=
  c == ' ' || c == '\t' || c == '\n' || c == '\r' ||
  c.toNat == 0x0B || c.toNat == 0x0C || c.toNat == 0xA0 || c.toNat == 0x1680 ||
  (0x2000 ≤ c.toNat && c.toNat ≤ 0x200A) ||
  c.toNat == 0x2028 || c.toNat == 0x2029 || c.toNat == 0x202F ||
  c.toNat == 0x205F || c.toNat == 0x3000 || c.toNat == 0xFEFF

/-- JS `String.prototype.trim`: drop whitespace from both ends. -/
def jsTrim (s : List Char) : List Char :=
  ((s.dropWhile isJsWhitespace).reverse.dropWhile isJsWhitespace).reverse

/-- A JS string is truthy after `.trim()` exactly when it has a
non-whitespace character; this is the `filter(line => line.trim())`
predicate of `search.ts`. -/
def hasNonWs (s : List Char) : Bool := s.any fun c => !isJsWhitespace c

/-- JS `String.prototype.split` with a single-character separator:
`"".split(c) = [""]`, separators delimit (possibly empty) fields. -/
def splitOnChar (sep : Char) : List Char → List (List Char)
  | [] => [[]]
  | c :: cs =>
    if c == sep then [] :: splitOnChar sep cs
    else
      match splitOnChar sep cs with
      | [] => [[c]]
      | t :: ts => (c :: t) :: ts

/-- The characters admitted by the `[0-9;]` parameter class of the
ANSI regex `/\x1b\[[0-9;]*m/`. -/
def isAnsiParam (c : Char) : Bool := c.isDigit || c == ';'

/-- After `ESC [` has been seen: consume the maximal `[0-9;]*` run; the match
succeeds exactly when the next character is a literal `m`, returning the
remainder of the input.  (Backtracking the greedy run cannot help, because
`m` is not in the parameter class.) -/
def ansiRest : List Char → Option (List Char)
  | [] => none
  | c :: cs => if isAnsiParam c then ansiRest cs else if c == 'm' then some cs else none

/-- One global pass of `replace(/\x1b\[[0-9;]*m/g, '')`: scan left to right,
removing each non-overlapping match and resuming after it; a failed match
attempt advances one character.  The `Nat` argument is structural-recursion
fuel, always supplied as the length of the scanned list (each step either
consumes the head or a full match of length at least three). -/
def stripAnsiFuel : Nat → List Char → List Char
  | _, [] => []
  | 0, l => l
  | fuel + 1, c :: cs =>
    if c == escChar then
      match cs with
      | '[' :: rest =>
        match ansiRest rest with
        | some rest2 => stripAnsiFuel fuel rest2
        | none => c :: stripAnsiFuel fuel cs
      | _ => c :: stripAnsiFuel fuel cs
    else c :: stripAnsiFuel fuel cs

/-- `stripAnsiCodes` of `extension.ts` lines 13-18 (also inlined at
`search.ts` lines 70, 131, 216): remove every substring matching
`/\x1b\[[0-9;]*m/` in one global pass. -/
def stripAnsiCodes (l : List Char) : List Char := stripAnsiFuel l.length l

/-- An ECMAScript line terminator: LF, CR, LS, PS.  Outside a class and
without the `s` flag, `.` matches everything except these, and without the
`m` flag `$` only matches at the very end of the input. -/
def isLineTerminator (c : Char) : Bool :=
  c == '\n' || c == '\r' || c.toNat == 0x2028 || c.toNat == 0x2029

/-- The numeric value of a digit run, as computed by `parseInt(digits, 10)`. -/
def natOfDigits (ds : List Char) : Nat :=
  ds.foldl (fun n c => 10 * n + (c.toNat - 48)) 0

/-- The groups captured by `/^([^:]+):(\d+):(.*)$/` (`parseSearchLine` of
`extension.ts` lines 20-24), with the line number already put through
`parseInt(_, 10)`. -/
structure ParsedLine where
  file : List Char
  line : Nat
  content : List Char
deriving DecidableEq, Repr

/-- Require a single literal character at the head of the input, returning
the rest on success (how a regex consumes a literal `:`). -/
def expectChar (c : Char) : List Char → Option (List Char)
  | [] => none
  | x :: xs => if x = c then some xs else none

/-- `parseSearchLine` of `extension.ts` lines 20-24 (the same anchored regex
is applied at `search.ts` lines 71, 166, 223).  `[^:]+` is the maximal
non-empty colon-free prefix, `\d+` the maximal non-empty digit run after the
first colon (neither can backtrack into a successful match, since their
classes exclude the required following `:`), and `(.*)$` takes the remainder
provided it contains no line terminator. -/
def parseSearchLine (s : List Char) : Option ParsedLine :=
  let file := s.takeWhile fun c => c != ':'
  if file.isEmpty then none
  else
    match expectChar ':' (s.dropWhile fun c => c != ':') with
    | none => none
    | some restAfterFile =>
      let digits := restAfterFile.takeWhile Char.isDigit
      if digits.isEmpty then none
      else
        match expectChar ':' (restAfterFile.dropWhile Char.isDigit) with
        | none => none
        | some content =>
          if content.all (fun c => !isLineTerminator c) then
            some ⟨file, natOfDigits digits, content⟩
          else none

/-- The un-anchored filename regex `/^([^:]+):/` of `search.ts` lines 92 and
141: the non-empty colon-free prefix, provided a colon follows it. -/
def leadingFilename (l : List Char) : Option (List Char) :=
  let f := l.takeWhile fun c => c != ':'
  if f.isEmpty then none
  else
    match expectChar ':' (l.dropWhile fun c => c != ':') with
    | some _ => some f
    | none => none

/-- Insertion-order deduplication with an explicit seen set: the order in
which `Array.from(new Set(...))` lists elements. -/
def dedupFirstAux {α : Type} [DecidableEq α] (seen : List α) : List α → List α
  | [] => []
  | x :: xs =>
    if x ∈ seen then dedupFirstAux seen xs
    else x :: dedupFirstAux (x :: seen) xs

/-- First-occurrence deduplication, the enumeration order of a JS `Set`. -/
def dedupFirst {α : Type} [DecidableEq α] (l : List α) : List α := dedupFirstAux [] l

/-- JS `parseInt(s, 10)`: skip leading whitespace, an optional sign, then
take the maximal leading digit run; `none` models `NaN`. -/
def jsParseInt (s : List Char) : Option Int :=
  let digitsValue : List Char → Option Nat := fun l =>
    let ds := l.takeWhile Char.isDigit
    if ds.isEmpty then none else some (natOfDigits ds)
  match s.dropWhile isJsWhitespace with
  | '-' :: rest => (digitsValue rest).map fun n => -(n : Int)
  | '+' :: rest => (digitsValue rest).map fun n => (n : Int)
  | t => (digitsValue t).map fun n => (n : Int)

/-! ### The search orchestrator (`search.ts`, `executeSearch`)

The ripgrep process is summarized by its exit code, stdout and stderr; the
two fzf processes by functions from the stdin payload to an `FzfRun`. -/

/-- The observable outcome of one fzf invocation. -/
structure FzfRun where
  exitCode : Int
  stdout : List Char
  stderr : List Char

/-- The three fatal failures of `executeSearch`, each carrying the
accumulated stderr text of the failed process. -/
inductive SearchError where
  | rgFailed (stderr : List Char)
  | fzfFilenameFailed (stderr : List Char)
  | fzfFailed (stderr : List Char)
deriving DecidableEq

/-- The result of `executeSearch` together with which of the two optional
fzf processes were spawned (a spawn happens on entering the corresponding
block, before its exit code is examined). -/
structure SearchTrace where
  result : Except SearchError (List (List Char))
  filenameFzfSpawned : Bool
  contentFzfSpawned : Bool

/-- `search.ts` lines 64, 213 etc.: split a process stdout on newlines, keep
the non-blank lines, strip ANSI codes. -/
def fzfLinesOf (out : List Char) : List (List Char) :=
  ((splitOnChar '\n' out).filter hasNonWs).map stripAnsiCodes

/-- The non-blank ripgrep output lines (`search.ts` line 64). -/
def rgLinesOf (out : List Char) : List (List Char) :=
  (splitOnChar '\n' out).filter hasNonWs

/-- The body of the `rgLines.forEach` at `search.ts` lines 68-79, for the
`lineMapping` side: ANSI-strip, strict-parse, and keep the cleaned line at
its index when the content has a non-whitespace character. -/
def lineStep (index : Nat) (line : List Char) : Option (Nat × List Char) :=
  let cleanLine := stripAnsiCodes line
  match parseSearchLine cleanLine with
  | some r =>
    if !r.content.isEmpty && hasNonWs r.content then some (index, cleanLine) else none
  | none => none

/-- The `lineMapping` insertion-ordered map built by the `forEach` at
`search.ts` lines 68-79, with `n` the index of the first listed line. -/
def buildLineMappingFrom : Nat → List (List Char) → List (Nat × List Char)
  | _, [] => []
  | n, l :: ls =>
    match lineStep n l with
    | some e => e :: buildLineMappingFrom (n + 1) ls
    | none => buildLineMappingFrom (n + 1) ls

/-- The `lineMapping` of `search.ts` for a given raw ripgrep stdout. -/
def lineMappingOf (out : List Char) : List (Nat × List Char) :=
  buildLineMappingFrom 0 (rgLinesOf out)

/-- The `contentLines` side of the same `forEach`: the kept content text. -/
def contentStep (line : List Char) : Option (List Char) :=
  let cleanLine := stripAnsiCodes line
  match parseSearchLine cleanLine with
  | some r =>
    if !r.content.isEmpty && hasNonWs r.content then some r.content else none
  | none => none

/-- The `contentLines` array of `search.ts` lines 65-79. -/
def contentLinesOf (out : List Char) : List (List Char) :=
  (rgLinesOf out).filterMap contentStep

/-- The distinct filenames of the surviving lines (`search.ts` lines 90-99):
a JS `Set` enumerates in first-insertion order. -/
def filenamesOf (lm : List (Nat × List Char)) : List (List Char) :=
  dedupFirst (lm.filterMap fun e => leadingFilename e.2)

/-- `filteredContentLines` and `filteredContentMapping` of `search.ts` lines
161-172: re-parse each surviving full line; on a match push its content and
record `(contentIndex, originalIndex, fullLine)`, bumping `contentIndex`
only on a match. -/
def buildFiltered : Nat → List (Nat × List Char) → List (List Char) × List (Nat × Nat × List Char)
  | _, [] => ([], [])
  | ci, (oi, fullLine) :: rest =>
    match parseSearchLine fullLine with
    | some r =>
      let p := buildFiltered (ci + 1) rest
      (r.content :: p.1, (ci, oi, fullLine) :: p.2)
    | none => buildFiltered ci rest

/-- The inner-loop test of `search.ts` lines 222-224: the entry's full line
strictly re-parses and its content group equals the matched text. -/
def entryMatches (m : List Char) (e : Nat × Nat × List Char) : Bool :=
  match parseSearchLine e.2.2 with
  | some r => r.content == m
  | none => false

/-- The strict-parse content of a full line, the value compared by the
re-association loop. -/
def lineContent (l : List Char) : Option (List Char) :=
  (parseSearchLine l).map (·.content)

/-- The re-association loop of `search.ts` lines 218-230: for each matched
content (in fzf output order) find the first not-yet-consumed entry of
`filteredContentMapping` (insertion order) whose content equals it, emit its
full line and delete the entry by its `contentIdx` key. -/
def reassociate : List (List Char) → List (Nat × Nat × List Char) → List (List Char)
  | [], _ => []
  | m :: ms, fm =>
    match fm.find? (entryMatches m) with
    | some e => e.2.2 :: reassociate ms (fm.filter fun e2 => e2.1 != e.1)
    | none => reassociate ms fm

/-- `search.ts` lines 161-237: the tail of `executeSearch` from the point
where `filteredMapping` is fixed — the blank-query and empty-content early
returns, and otherwise the content fzf invocation and re-association.
`fnameSpawned` records whether the filename fzf process ran earlier. -/
def contentStage (query : List Char) (fzfContent : List Char → FzfRun)
    (filteredMapping : List (Nat × List Char)) (fnameSpawned : Bool) : SearchTrace :=
  let built := buildFiltered 0 filteredMapping
  if built.1 = [] ∨ jsTrim query = [] then
    if jsTrim query = [] then ⟨.ok (filteredMapping.map (·.2)), fnameSpawned, false⟩
    else ⟨.ok [], fnameSpawned, false⟩
  else
    let run := fzfContent (List.intercalate ['\n'] built.1)
    if run.exitCode ≠ 0 ∧ run.exitCode ≠ 1 then
      ⟨.error (.fzfFailed run.stderr), fnameSpawned, true⟩
    else
      ⟨.ok (reassociate (fzfLinesOf run.stdout) built.2), fnameSpawned, true⟩

/-- `executeSearch` of `search.ts` lines 9-240, from the point where the
ripgrep process has closed with exit code `rgCode`, stdout `rgOutput` and
stderr `rgError`.  `fzfFilename` and `fzfContent` give the outcome of the
two optional fzf invocations as a function of their stdin payload. -/
def executeSearch (rgCode : Int) (rgOutput rgError : List Char)
    (query filenameFilter : List Char)
    (fzfFilename fzfContent : List Char → FzfRun) : SearchTrace :=
  if rgCode ≠ 0 ∧ rgCode ≠ 1 then ⟨.error (.rgFailed rgError), false, false⟩
  else if jsTrim rgOutput = [] then ⟨.ok [], false, false⟩
  else if contentLinesOf rgOutput = [] then ⟨.ok [], false, false⟩
  else
    let lineMapping := lineMappingOf rgOutput
    if jsTrim filenameFilter ≠ [] then
      let run := fzfFilename (List.intercalate ['\n'] (filenamesOf lineMapping))
      if run.exitCode ≠ 0 ∧ run.exitCode ≠ 1 then
        ⟨.error (.fzfFilenameFailed run.stderr), true, false⟩
      else
        let matched := fzfLinesOf run.stdout
        let filteredMapping :=
          if matched = [] then []
          else lineMapping.filter fun e =>
            match leadingFilename e.2 with
            | some f => decide (f ∈ matched)
            | none => false
        if filteredMapping = [] then ⟨.ok [], true, false⟩
        else contentStage query fzfContent filteredMapping true
    else contentStage query fzfContent lineMapping false

/-! ### The result pager (`providers.ts`, `SearchResultsProvider`) -/

/-- The `SearchResult` record of `providers.ts` lines 182-186; `line` is
`none` when the JS value is `NaN`. -/
structure SearchResult where
  file : List Char
  line : Option Int
  content : List Char
deriving DecidableEq, Repr

/-- Node `path.isAbsolute` for POSIX paths. -/
def isAbsolutePath (p : List Char) : Bool :=
  match p with
  | [] => false
  | c :: _ => c == '/'

/-- Node `path.join` for POSIX paths, modelled without dot-segment
normalization (the joined inputs here are a workspace root and a ripgrep
relative path, which contain no `.`/`..` segments); two empty inputs give
`"."` as in Node. -/
def pathJoin (a b : List Char) : List Char :=
  let joined := if a = [] then b else if b = [] then a else a ++ '/' :: b
  if joined = [] then ['.'] else joined

/-- `providers.ts` lines 230, 235: an absolute path is used unchanged, a
relative one is joined to the workspace path. -/
def resolvePath (workspacePath p : List Char) : List Char :=
  if isAbsolutePath p then p else pathJoin workspacePath p

/-- The per-raw-line body of the `batch.map` at `providers.ts` lines
226-237: strict-parse via `parseSearchLine`, else fall back to splitting on
`:` (segment 0 the file, `parseInt` of segment 1 the line, the rest rejoined
with `:` and trimmed the content). -/
def toSearchResult (workspacePath rawLine : List Char) : SearchResult :=
  match parseSearchLine rawLine with
  | some parsed =>
    ⟨resolvePath workspacePath parsed.file, some (parsed.line : Int), jsTrim parsed.content⟩
  | none =>
    let parts := splitOnChar ':' rawLine
    let file := resolvePath workspacePath (parts.headD [])
    let line := match parts.get? 1 with
      | some p1 => jsParseInt p1
      | none => none
    let content := jsTrim (List.intercalate [':'] (parts.drop 2))
    ⟨file, line, content⟩

/-- The grouping insertion of `providers.ts` lines 240-245 on the
insertion-ordered `results` map: append to the existing file group, or
append a new singleton group at the end. -/
def addToGroups (groups : List (List Char × List SearchResult)) (r : SearchResult) :
    List (List Char × List SearchResult) :=
  match groups with
  | [] => [(r.file, [r])]
  | (k, ms) :: rest =>
    if k = r.file then (k, ms ++ [r]) :: rest
    else (k, ms) :: addToGroups rest r

/-- The mutable fields of `SearchResultsProvider` (`providers.ts` lines
192-196), with their initializers as defaults. -/
structure PagerState where
  results : List (List Char × List SearchResult) := []
  allRawResults : List (List Char) := []
  currentlyDisplayed : Nat := 0
  workspacePath : List Char := []
  batchSize : Nat := 100
deriving DecidableEq

/-- A freshly constructed `SearchResultsProvider`. -/
def initialPager : PagerState := {}

/-- `loadMoreResults` of `providers.ts` lines 217-250. -/
def loadMoreResults (count : Nat) (s : PagerState) : Bool × PagerState :=
  let startIndex := s.currentlyDisplayed
  let endIndex := min (startIndex + count) s.allRawResults.length
  if s.allRawResults.length ≤ startIndex then (false, s)
  else
    let batch := (s.allRawResults.drop startIndex).take (endIndex - startIndex)
    let searchResults := batch.map (toSearchResult s.workspacePath)
    let newResults := searchResults.foldl addToGroups s.results
    (decide (endIndex < s.allRawResults.length),
      { s with results := newResults, currentlyDisplayed := endIndex })

/-- `setAllResults` of `providers.ts` lines 209-215: replace the raw result
set and workspace path, clear the grouping, reset the cursor, and reveal the
first batch (its Boolean result is discarded). -/
def setAllResults (rawResults : List (List Char)) (workspacePath : List Char)
    (s : PagerState) : PagerState :=
  (loadMoreResults s.batchSize
    { s with allRawResults := rawResults, workspacePath := workspacePath,
             results := [], currentlyDisplayed := 0 }).2

/-- A sequence of `loadMoreResults` calls. -/
def applyLoads (ks : List Nat) (s : PagerState) : PagerState :=
  ks.foldl (fun st k => (loadMoreResults k st).2) s

/-- The grouping obtained from a list of raw lines in order. -/
def groupsOf (workspacePath : List Char) (raws : List (List Char)) :
    List (List Char × List SearchResult) :=
  (raws.map (toSearchResult workspacePath)).foldl addToGroups []

/-- `this.results.get(f)` on the insertion-ordered grouping. -/
def lookupGroup (f : List Char) : List (List Char × List SearchResult) → List SearchResult
  | [] => []
  | (k, ms) :: rest => if k = f then ms else lookupGroup f rest

/-- The total number of `SearchResult`s held across all file groups. -/
def groupSizes (g : List (List Char × List SearchResult)) : Nat :=
  (g.map fun e => e.2.length).sum

/-! ### Claim C3 -/

theorem lineStep_eq_some_iff (n i : Nat) (raw v : List Char) :
    lineStep n raw = some (i, v) ↔
      i = n ∧ v = stripAnsiCodes raw ∧
      ∃ r, parseSearchLine (stripAnsiCodes raw) = some r ∧
        r.content ≠ [] ∧ hasNonWs r.content = true := by
  unfold lineStep
  dsimp only
  cases hp : parseSearchLine (stripAnsiCodes raw) with
  | none => simp
  | some r =>
    dsimp only
    by_cases hc : (!r.content.isEmpty && hasNonWs r.content) = true
    · rw [if_pos hc]
      have hc' : r.content ≠ [] ∧ hasNonWs r.content = true := by
        simpa [List.isEmpty_iff] using hc
      simp only [Option.some.injEq, Prod.mk.injEq]
      constructor
      · rintro ⟨h1, h2⟩
        exact ⟨h1.symm, h2.symm, r, rfl, hc'⟩
      · rintro ⟨h1, h2, r', hr', -⟩
        exact ⟨h1.symm, h2.symm⟩
    · rw [if_neg hc]
      constructor
      · intro h
        cases h
      · rintro ⟨h1, h2, r', hr', hne, hnw⟩
        exfalso
        apply hc
        have : r' = r := by
          injection hr' with h
          exact h.symm
        subst this
        simp [List.isEmpty_iff, hne, hnw]

theorem lineStep_fst {n : Nat} {raw : List Char} {e : Nat × List Char}
    (h : lineStep n raw = some e) : e.1 = n :=
  ((lineStep_eq_some_iff n e.1 raw e.2).mp h).1

theorem mem_buildLineMappingFrom (ls : List (List Char)) :
    ∀ (n i : Nat) (v : List Char),
      (i, v) ∈ buildLineMappingFrom n ls ↔
        n ≤ i ∧ ∃ raw, ls.get? (i - n) = some raw ∧ lineStep i raw = some (i, v) := by
  induction ls with
  | nil =>
    intro n i v
    simp [buildLineMappingFrom]
  | cons l ls ih =>
    intro n i v
    unfold buildLineMappingFrom
    cases hstep : lineStep n l with
    | some e =>
      obtain ⟨i0, v0⟩ := e
      have hi0 : i0 = n := lineStep_fst hstep
      subst hi0
      constructor
      · intro hmem
        rcases List.mem_cons.mp hmem with heq | hmem'
        · obtain ⟨rfl, rfl⟩ : i = i0 ∧ v = v0 := by
            exact ⟨congrArg Prod.fst heq, congrArg Prod.snd heq⟩
          refine ⟨Nat.le_refl i, l, ?_, ?_⟩
          · simp
          · exact hstep
        · obtain ⟨hge, raw, hget, hstep'⟩ := (ih (i0 + 1) i v).mp hmem'
          refine ⟨by omega, raw, ?_, hstep'⟩
          have hidx : i - i0 = (i - (i0 + 1)) + 1 := by omega
          rw [hidx]
          simpa using hget
      · rintro ⟨hge, raw, hget, hstep'⟩
        by_cases hin : i = i0
        · subst hin
          have hraw : raw = l := by
            have : i - i = 0 := by omega
            rw [this] at hget
            simpa using hget.symm
          subst hraw
          rw [hstep'] at hstep
          have : v0 = v := by
            injection hstep with h
            exact (congrArg Prod.snd h).symm
          subst this
          exact List.mem_cons_self _ _
        · have hgt : i0 + 1 ≤ i := by omega
          apply List.mem_cons_of_mem
          apply (ih (i0 + 1) i v).mpr
          refine ⟨hgt, raw, ?_, hstep'⟩
          have hidx : i - i0 = (i - (i0 + 1)) + 1 := by omega
          rw [hidx] at hget
          simpa using hget
    | none =>
      constructor
      · intro hmem
        obtain ⟨hge, raw, hget, hstep'⟩ := (ih (n + 1) i v).mp hmem
        refine ⟨by omega, raw, ?_, hstep'⟩
        have hidx : i - n = (i - (n + 1)) + 1 := by omega
        rw [hidx]
        simpa using hget
      · rintro ⟨hge, raw, hget, hstep'⟩
        by_cases hin : i = n
        · subst hin
          have hraw : raw = l := by
            have : i - i = 0 := by omega
            rw [this] at hget
            simpa using hget.symm
          subst hraw
          rw [hstep'] at hstep
          cases hstep
        · have hgt : n + 1 ≤ i := by omega
          apply (ih (n + 1) i v).mpr
          refine ⟨hgt, raw, ?_, hstep'⟩
          have hidx : i - n = (i - (n + 1)) + 1 := by omega
          rw [hidx] at hget
          simpa using hget

theorem buildLineMappingFrom_keys_ge (ls : List (List Char)) :
    ∀ (n : Nat) (p : Nat × List Char), p ∈ buildLineMappingFrom n ls → n ≤ p.1 := by
  induction ls with
  | nil =>
    intro n p hp
    simp [buildLineMappingFrom] at hp
  | cons l ls ih =>
    intro n p hp
    unfold buildLineMappingFrom at hp
    cases hstep : lineStep n l with
    | some e =>
      rw [hstep] at hp
      rcases List.mem_cons.mp hp with rfl | hp'
      · exact Nat.le_of_eq (lineStep_fst hstep).symm
      · exact Nat.le_of_succ_le (ih (n + 1) p hp')
    | none =>
      rw [hstep] at hp
      exact Nat.le_of_succ_le (ih (n + 1) p hp)

theorem buildLineMappingFrom_keys_sorted (ls : List (List Char)) :
    ∀ n : Nat, ((buildLineMappingFrom n ls).map Prod.fst).Pairwise (· < ·) := by
  induction ls with
  | nil =>
    intro n
    simp [buildLineMappingFrom]
  | cons l ls ih =>
    intro n
    unfold buildLineMappingFrom
    cases hstep : lineStep n l with
    | some e =>
      simp only [List.map_cons]
      refine List.Pairwise.cons ?_ (ih (n + 1))
      intro k hk
      obtain ⟨p, hp, rfl⟩ := List.mem_map.mp hk
      have := buildLineMappingFrom_keys_ge ls (n + 1) p hp
      have he : e.1 = n := lineStep_fst hstep
      omega
    | none => exact ih (n + 1)

/-- C3: every non-blank line of the grep output (the entries of
`rgLinesOf`) is ANSI-stripped and then strictly parsed; an index `i` carries
a retained full line `v` in the `lineMapping` exactly when the `i`-th
non-blank output line, once stripped, parses with the strict
`file:line:content` pattern to a content that is non-empty and survives
trimming, and then `v` is that stripped line; lines failing the parse or
with whitespace-only content are dropped, and the retained keys appear in
strictly increasing (original 0-based) order. -/
theorem claimC3 (out : List Char) (i : Nat) (v : List Char) :
    ((i, v) ∈ lineMappingOf out ↔
      ∃ raw, (rgLinesOf out).get? i = some raw ∧ v = stripAnsiCodes raw ∧
        ∃ r, parseSearchLine (stripAnsiCodes raw) = some r ∧
          r.content ≠ [] ∧ hasNonWs r.content = true) ∧
    ((lineMappingOf out).map Prod.fst).Pairwise (· < ·) := by
  constructor
  · unfold lineMappingOf
    rw [mem_buildLineMappingFrom]
    simp only [Nat.zero_le, true_and, Nat.sub_zero]
    constructor
    · rintro ⟨raw, hget, hstep⟩
      obtain ⟨-, hv, hr⟩ := (lineStep_eq_some_iff i i raw v).mp hstep
      exact ⟨raw, hget, hv, hr⟩
    · rintro ⟨raw, hget, hv, hr⟩
      exact ⟨raw, hget, (lineStep_eq_some_iff i i raw v).mpr ⟨rfl, hv, hr⟩⟩
  · exact buildLineMappingFrom_keys_sorted _ _


end Where

namespace Where

/-! ### Helper lemmas on the string primitives -/

theorem takeWhile_append_of (p : Char → Bool) (l1 l2 : List Char) (x : Char)
    (h1 : ∀ c ∈ l1, p c = true) (hx : p x = false) :
    (l1 ++ x :: l2).takeWhile p = l1 := by
  induction l1 with
  | nil => simp [List.takeWhile, hx]
  | cons c cs ih =>
    have hc : p c = true := h1 c (by simp)
    simp only [List.cons_append, List.takeWhile_cons, hc, if_true]
    rw [ih fun d hd => h1 d (by simp [hd])]

theorem dropWhile_append_of (p : Char → Bool) (l1 l2 : List Char) (x : Char)
    (h1 : ∀ c ∈ l1, p c = true) (hx : p x = false) :
    (l1 ++ x :: l2).dropWhile p = x :: l2 := by
  induction l1 with
  | nil => simp [List.dropWhile, hx]
  | cons c cs ih =>
    have hc : p c = true := h1 c (by simp)
    simp only [List.cons_append, List.dropWhile_cons, hc, if_true]
    exact ih fun d hd => h1 d (by simp [hd])

theorem stripAnsiFuel_of_no_esc (fuel : Nat) :
    ∀ l : List Char, escChar ∉ l → stripAnsiFuel fuel l = l := by
  induction fuel with
  | zero =>
    intro l _
    cases l <;> rfl
  | succ n ih =>
    intro l hl
    cases l with
    | nil => rfl
    | cons c cs =>
      have hc : (c == escChar) = false := by
        simp only [beq_eq_false_iff_ne]
        intro h
        exact hl (by simp [h])
      simp only [stripAnsiFuel, hc, Bool.false_eq_true, if_false, List.cons.injEq, true_and]
      exact ih cs fun h => hl (List.mem_cons_of_mem c h)

theorem stripAnsiCodes_of_no_esc (l : List Char) (hl : escChar ∉ l) :
    stripAnsiCodes l = l :=
  stripAnsiFuel_of_no_esc l.length l hl

/-! ### Claim C6 -/

/-- C6 counterexample: the claim "for every string s,
stripAnsiCodes (stripAnsiCodes s) = stripAnsiCodes s" is false at the
explicit input `ESC [ 3 ESC [ 3 1 m m`: one global pass removes only the
inner `ESC[31m`, leaving `ESC [ 3 m`, which a second pass removes entirely. -/
theorem claimC6_counterexample :
    stripAnsiCodes (stripAnsiCodes "\x1b[3\x1b[31mm".toList)
      ≠ stripAnsiCodes "\x1b[3\x1b[31mm".toList ∧
    stripAnsiCodes "\x1b[3\x1b[31mm".toList = "\x1b[3m".toList ∧
    stripAnsiCodes (stripAnsiCodes "\x1b[3\x1b[31mm".toList) = [] := by
  refine ⟨?_, by decide, by decide⟩
  decide

/-- C6 (amended): stripping is idempotent on every string whose stripped
form no longer contains the ESC character (in particular on every
ESC-free string); a single global pass of `stripAnsiCodes` can splice a
new `ESC [ params m` sequence together, so full idempotence fails. -/
theorem claimC6 (s : List Char) (h : escChar ∉ stripAnsiCodes s) :
    stripAnsiCodes (stripAnsiCodes s) = stripAnsiCodes s :=
  stripAnsiCodes_of_no_esc (stripAnsiCodes s) h

/-- C6 witness: the amended idempotence applied at `ESC[31mfoo`. -/
theorem claimC6_witness :
    stripAnsiCodes (stripAnsiCodes "\x1b[31mfoo".toList)
      = stripAnsiCodes "\x1b[31mfoo".toList :=
  claimC6 "\x1b[31mfoo".toList (by decide)

/-! ### Claim C5 -/

/-- C5 counterexample: `"f:1:a\rb"` is of the well-formed shape
`file ++ ":" ++ digits ++ ":" ++ content` with a colon-free non-empty file
and a non-empty digit run, yet `parseSearchLine` returns `none`, because the
ECMAScript `.` of `(.*)$` does not match the carriage return in the content
and `$` (without the `m` flag) only matches at the end of the input. -/
theorem claimC5_counterexample :
    "f:1:a\rb".toList = "f".toList ++ ':' :: ("1".toList ++ ':' :: "a\rb".toList) ∧
    "f".toList ≠ [] ∧ (∀ c ∈ "f".toList, c ≠ ':') ∧
    "1".toList ≠ [] ∧ (∀ c ∈ "1".toList, c.isDigit = true) ∧
    parseSearchLine "f:1:a\rb".toList = none := by
  refine ⟨by decide, by decide, by decide, by decide, by decide, by decide⟩

/-- C5 (amended): for every well-formed `file:line:content` string in which
`file` is non-empty and colon-free, `line` is a non-empty digit run and the
content contains no ECMAScript line terminator, `parseSearchLine` returns
exactly the three components (the content may itself contain colons); and
every string without a colon-digits-colon segment parses to `none`. -/
theorem expectChar_cons_self (c : Char) (l : List Char) : expectChar c (c :: l) = some l := by
  simp [expectChar]

theorem expectChar_eq_some {c : Char} {l rest : List Char}
    (h : expectChar c l = some rest) : l = c :: rest := by
  cases l with
  | nil => cases h
  | cons x xs =>
    simp only [expectChar] at h
    by_cases hx : x = c
    · rw [if_pos hx] at h
      cases h
      rw [hx]
    · rw [if_neg hx] at h
      cases h

theorem claimC5 :
    (∀ file digits content : List Char,
      file ≠ [] → (∀ c ∈ file, c ≠ ':') →
      digits ≠ [] → (∀ c ∈ digits, c.isDigit = true) →
      (∀ c ∈ content, isLineTerminator c = false) →
      parseSearchLine (file ++ ':' :: (digits ++ ':' :: content))
        = some ⟨file, natOfDigits digits, content⟩) ∧
    (∀ s : List Char,
      (¬ ∃ a d b : List Char, s = a ++ ':' :: (d ++ ':' :: b) ∧ d ≠ [] ∧
        ∀ c ∈ d, c.isDigit = true) →
      parseSearchLine s = none) := by
  constructor
  · intro file digits content hfne hfcol hdne hdig hcont
    have hfile : ∀ c ∈ file, (c != ':') = true := by
      intro c hc; simpa using hfcol c hc
    have hcolon : ((':' : Char) != ':') = false := by decide
    have hcolond : (':' : Char).isDigit = false := by decide
    have hfe : ¬ ((file.isEmpty : Bool) = true) := by
      simpa [List.isEmpty_iff] using hfne
    have hde : ¬ ((digits.isEmpty : Bool) = true) := by
      simpa [List.isEmpty_iff] using hdne
    have hall : (content.all fun c => !isLineTerminator c) = true := by
      simp only [List.all_eq_true]
      intro c hc
      simp [hcont c hc]
    unfold parseSearchLine
    rw [takeWhile_append_of _ _ _ _ hfile hcolon,
        dropWhile_append_of _ _ _ _ hfile hcolon,
        expectChar_cons_self]
    dsimp only
    rw [takeWhile_append_of _ _ _ _ hdig hcolond,
        dropWhile_append_of _ _ _ _ hdig hcolond,
        expectChar_cons_self]
    dsimp only
    rw [if_neg hfe, if_neg hde, if_pos hall]
  · intro s hno
    cases hp : parseSearchLine s with
    | none => rfl
    | some r =>
      exfalso
      apply hno
      unfold parseSearchLine at hp
      dsimp only at hp
      by_cases hfe : ((s.takeWhile fun c => c != ':').isEmpty : Bool) = true
      · rw [if_pos hfe] at hp
        cases hp
      · rw [if_neg hfe] at hp
        cases hd : expectChar ':' (s.dropWhile fun c => c != ':') with
        | none =>
          rw [hd] at hp
          cases hp
        | some restAfterFile =>
          rw [hd] at hp
          dsimp only at hp
          by_cases hde : ((restAfterFile.takeWhile Char.isDigit).isEmpty : Bool) = true
          · rw [if_pos hde] at hp
            cases hp
          · rw [if_neg hde] at hp
            cases hd2 : expectChar ':' (restAfterFile.dropWhile Char.isDigit) with
            | none =>
              rw [hd2] at hp
              cases hp
            | some content =>
              refine ⟨s.takeWhile (fun c => c != ':'),
                restAfterFile.takeWhile Char.isDigit, content, ?_, ?_, ?_⟩
              · conv_lhs =>
                  rw [← List.takeWhile_append_dropWhile (p := fun c => c != ':') (l := s)]
                rw [expectChar_eq_some hd]
                congr 1
                conv_lhs =>
                  rw [← List.takeWhile_append_dropWhile (p := Char.isDigit) (l := restAfterFile)]
                rw [expectChar_eq_some hd2]
              · simpa [List.isEmpty_iff] using hde
              · intro c hc
                exact List.mem_takeWhile_imp hc

/-- C5 witness: the amended parser contract applied at the well-formed
input `"ab:12:x:y"` (content containing a colon) and, for the negative
direction, at the empty string. -/
theorem claimC5_witness :
    parseSearchLine "ab:12:x:y".toList
      = some ⟨"ab".toList, 12, "x:y".toList⟩ ∧
    parseSearchLine ([] : List Char) = none := by
  constructor
  · have h := claimC5.1 "ab".toList "12".toList "x:y".toList
      (by decide) (by decide) (by decide) (by decide) (by decide)
    simpa using h
  · exact claimC5.2 [] (by
      rintro ⟨a, d, b, heq, -, -⟩
      have hlen := congrArg List.length heq
      simp only [List.length_nil, List.length_append, List.length_cons] at hlen
      omega)

/-! ### Claim C1 -/

theorem entryMatches_iff (m : List Char) (e : Nat × Nat × List Char) :
    entryMatches m e = true ↔ lineContent e.2.2 = some m := by
  unfold entryMatches lineContent
  cases parseSearchLine e.2.2 with
  | none => simp
  | some r => simp

theorem filter_key_eq_self (fm : List (Nat × Nat × List Char)) (k : Nat)
    (h : ∀ e ∈ fm, e.1 ≠ k) : (fm.filter fun e2 => e2.1 != k) = fm :=
  List.filter_eq_self.mpr fun e he => by simpa using h e he

theorem find_filter_head (c : List Char) (fm : List (Nat × Nat × List Char))
    (hnd : (fm.map fun e => e.1).Nodup) (e : Nat × Nat × List Char)
    (hfind : fm.find? (entryMatches c) = some e) :
    fm.filter (entryMatches c)
      = e :: ((fm.filter fun e2 => e2.1 != e.1).filter (entryMatches c)) := by
  induction fm with
  | nil => cases hfind
  | cons a fm ih =>
    have hnd' : (fm.map fun x => x.1).Nodup := (List.nodup_cons.mp hnd).2
    have hnotin : a.1 ∉ fm.map fun x => x.1 := (List.nodup_cons.mp hnd).1
    by_cases hpa : entryMatches c a = true
    · rw [List.find?_cons_of_pos _ hpa] at hfind
      injection hfind with he
      subst he
      rw [List.filter_cons_of_pos hpa]
      congr 1
      have h1 : ((a :: fm).filter fun e2 => e2.1 != a.1)
          = fm.filter fun e2 => e2.1 != a.1 := by
        rw [List.filter_cons_of_neg]
        simp
      rw [h1, filter_key_eq_self]
      intro x hx hk
      exact hnotin (hk ▸ List.mem_map_of_mem (fun y => y.1) hx)
    · rw [List.find?_cons_of_neg _ hpa] at hfind
      have he_mem : e ∈ fm := List.mem_of_find?_eq_some hfind
      have hak : a.1 ≠ e.1 :=
        fun hh => hnotin (hh ▸ List.mem_map_of_mem (fun y => y.1) he_mem)
      rw [List.filter_cons_of_neg hpa]
      have h2 : ((a :: fm).filter fun e2 => e2.1 != e.1)
          = a :: (fm.filter fun e2 => e2.1 != e.1) := by
        rw [List.filter_cons_of_pos]
        simpa using hak
      rw [h2, List.filter_cons_of_neg hpa]
      exact ih hnd' hfind

theorem filter_key_other (c : List Char) (fm : List (Nat × Nat × List Char))
    (hnd : (fm.map fun e => e.1).Nodup) (e : Nat × Nat × List Char)
    (hmem : e ∈ fm) (hfalse : entryMatches c e = false) :
    ((fm.filter fun e2 => e2.1 != e.1).filter (entryMatches c))
      = fm.filter (entryMatches c) := by
  induction fm with
  | nil => cases hmem
  | cons a fm ih =>
    have hnd' : (fm.map fun x => x.1).Nodup := (List.nodup_cons.mp hnd).2
    have hnotin : a.1 ∉ fm.map fun x => x.1 := (List.nodup_cons.mp hnd).1
    rcases List.mem_cons.mp hmem with rfl | hmem'
    · have h1 : ((e :: fm).filter fun e2 => e2.1 != e.1)
          = fm.filter fun e2 => e2.1 != e.1 := by
        rw [List.filter_cons_of_neg]
        simp
      rw [h1, filter_key_eq_self fm e.1
        (fun x hx hk => hnotin (hk ▸ List.mem_map_of_mem (fun y => y.1) hx))]
      rw [List.filter_cons_of_neg (by simp [hfalse])]
    · have hak : a.1 ≠ e.1 :=
        fun hh => hnotin (hh ▸ List.mem_map_of_mem (fun y => y.1) hmem')
      have h2 : ((a :: fm).filter fun e2 => e2.1 != e.1)
          = a :: (fm.filter fun e2 => e2.1 != e.1) := by
        rw [List.filter_cons_of_pos]
        simpa using hak
      rw [h2]
      by_cases hpa : entryMatches c a = true
      · rw [List.filter_cons_of_pos hpa, List.filter_cons_of_pos hpa,
          ih hnd' hmem']
      · rw [List.filter_cons_of_neg hpa, List.filter_cons_of_neg hpa,
          ih hnd' hmem']

theorem reassociate_sublist_contents (ms : List (List Char)) :
    ∀ fm : List (Nat × Nat × List Char),
      List.Sublist ((reassociate ms fm).map lineContent) (ms.map some) := by
  induction ms with
  | nil =>
    intro fm
    simp [reassociate]
  | cons m ms ih =>
    intro fm
    unfold reassociate
    cases hfind : fm.find? (entryMatches m) with
    | none => exact List.Sublist.cons _ (ih fm)
    | some e =>
      simp only [List.map_cons]
      rw [(entryMatches_iff m e).mp (List.find?_some hfind)]
      exact List.Sublist.cons₂ _ (ih _)

theorem reassociate_filter_content (c : List Char) (ms : List (List Char)) :
    ∀ fm : List (Nat × Nat × List Char), (fm.map fun e => e.1).Nodup →
      (reassociate ms fm).filter (fun l => lineContent l == some c)
        = ((fm.filter (entryMatches c)).map fun e => e.2.2).take (ms.count c) := by
  induction ms with
  | nil =>
    intro fm hnd
    simp [reassociate]
  | cons m ms ih =>
    intro fm hnd
    unfold reassociate
    cases hfind : fm.find? (entryMatches m) with
    | none =>
      have hnone : ∀ x ∈ fm, ¬ entryMatches m x = true := List.find?_eq_none.mp hfind
      by_cases hmc : m = c
      · subst hmc
        have hfe : fm.filter (entryMatches m) = [] :=
          List.filter_eq_nil_iff.mpr hnone
        rw [ih fm hnd, hfe]
        simp
      · rw [ih fm hnd]
        congr 1
        rw [List.count_cons]
        simp [hmc]
    | some e =>
      have hpe : entryMatches m e = true := List.find?_some hfind
      have hlc : lineContent e.2.2 = some m := (entryMatches_iff m e).mp hpe
      have hnd' : ((fm.filter fun e2 => e2.1 != e.1).map fun x => x.1).Nodup :=
        hnd.sublist (List.Sublist.map _ (List.filter_sublist fm))
      by_cases hmc : m = c
      · subst hmc
        rw [List.filter_cons_of_pos (by simp [hlc])]
        rw [ih _ hnd', find_filter_head m fm hnd e hfind]
        simp [List.count_cons_self]
      · have hfalse : entryMatches c e = false := by
          cases hec : entryMatches c e
          · rfl
          · exfalso
            apply hmc
            have h2 := (entryMatches_iff c e).mp hec
            rw [hlc] at h2
            injection h2
        rw [List.filter_cons_of_neg (by simp [hlc, hmc])]
        rw [ih _ hnd',
          filter_key_other c fm hnd e (List.mem_of_find?_eq_some hfind) hfalse]
        congr 1
        rw [List.count_cons]
        simp [hmc]

/-- C1: the re-association loop emits full lines in the fuzzy engine's
output order (the emitted contents form a sublist of the matched-content
list), and for every content value `c`, the emitted lines with content `c`
are exactly the first `min(count of c in the fzf output, number of
surviving lines with content c)` surviving lines with content `c`, in
original relative order — so each fzf occurrence consumes at most one line,
ties are matched in original relative order, and two physically distinct
lines with identical content each produce their own result exactly once,
never collapsed into one. -/
theorem claimC1 (ms : List (List Char)) (fm : List (Nat × Nat × List Char))
    (hkeys : (fm.map fun e => e.1).Nodup) :
    List.Sublist ((reassociate ms fm).map lineContent) (ms.map some) ∧
    ∀ c : List Char,
      (reassociate ms fm).filter (fun l => lineContent l == some c)
        = ((fm.filter (entryMatches c)).map fun e => e.2.2).take (ms.count c) :=
  ⟨reassociate_sublist_contents ms fm,
   fun c => reassociate_filter_content c ms fm hkeys⟩

/-- C1 witness: two distinct source lines that both have content `TODO`,
with the fuzzy engine echoing `TODO` twice. -/
theorem claimC1_witness :
    (([(0, 0, "a.ts:1:TODO".toList), (1, 1, "b.ts:2:TODO".toList)].map
        fun e => e.1).Nodup) ∧
    List.Sublist
      ((reassociate ["TODO".toList, "TODO".toList]
          [(0, 0, "a.ts:1:TODO".toList), (1, 1, "b.ts:2:TODO".toList)]).map lineContent)
      (["TODO".toList, "TODO".toList].map some) ∧
    (reassociate ["TODO".toList, "TODO".toList]
        [(0, 0, "a.ts:1:TODO".toList), (1, 1, "b.ts:2:TODO".toList)]).filter
        (fun l => lineContent l == some "TODO".toList)
      = (([(0, 0, "a.ts:1:TODO".toList), (1, 1, "b.ts:2:TODO".toList)].filter
          (entryMatches "TODO".toList)).map fun e => e.2.2).take
          (["TODO".toList, "TODO".toList].count "TODO".toList) := by
  refine ⟨by decide, ?_, ?_⟩
  · exact (claimC1 ["TODO".toList, "TODO".toList]
      [(0, 0, "a.ts:1:TODO".toList), (1, 1, "b.ts:2:TODO".toList)] (by decide)).1
  · exact (claimC1 ["TODO".toList, "TODO".toList]
      [(0, 0, "a.ts:1:TODO".toList), (1, 1, "b.ts:2:TODO".toList)] (by decide)).2
      "TODO".toList


/-! ### Claims C2, C4, C7 -/

theorem contentStage_blank_query (query : List Char) (fz : List Char → FzfRun)
    (fm : List (Nat × List Char)) (sp : Bool) (hq : jsTrim query = []) :
    contentStage query fz fm sp = ⟨.ok (fm.map (·.2)), sp, false⟩ := by
  unfold contentStage
  dsimp only
  rw [if_pos (Or.inr hq), if_pos hq]

theorem contentStage_no_content (query : List Char) (fz : List Char → FzfRun)
    (fm : List (Nat × List Char)) (sp : Bool) (hq : jsTrim query ≠ [])
    (hb : (buildFiltered 0 fm).1 = []) :
    contentStage query fz fm sp = ⟨.ok [], sp, false⟩ := by
  unfold contentStage
  dsimp only
  rw [if_pos (Or.inl hb), if_neg hq]

theorem contentStage_ok (query : List Char) (fz : List Char → FzfRun)
    (fm : List (Nat × List Char)) (sp : Bool)
    (hc : ∀ s, (fz s).exitCode = 0 ∨ (fz s).exitCode = 1) :
    ∃ rs, (contentStage query fz fm sp).result = .ok rs := by
  unfold contentStage
  dsimp only
  by_cases h1 : (buildFiltered 0 fm).1 = [] ∨ jsTrim query = []
  · rw [if_pos h1]
    by_cases h2 : jsTrim query = []
    · rw [if_pos h2]
      exact ⟨_, rfl⟩
    · rw [if_neg h2]
      exact ⟨_, rfl⟩
  · rw [if_neg h1]
    rw [if_neg (by
      rcases hc (List.intercalate ['\n'] (buildFiltered 0 fm).1) with h | h <;> simp [h])]
    exact ⟨_, rfl⟩

/-- C2: with a non-blank filename filter, if the filename fzf stage exits
with an accepted code and zero matched filenames, `executeSearch` resolves
to the empty result list and the content fzf process is never spawned (the
earlier empty-output and no-content short-circuits also resolve empty
without it). -/
theorem claimC2 (rgCode : Int) (rgOutput rgError query filenameFilter : List Char)
    (fzfFilename fzfContent : List Char → FzfRun)
    (hrg : rgCode = 0 ∨ rgCode = 1)
    (hff : jsTrim filenameFilter ≠ [])
    (hzero : ∀ s, ((fzfFilename s).exitCode = 0 ∨ (fzfFilename s).exitCode = 1) ∧
        fzfLinesOf (fzfFilename s).stdout = []) :
    (executeSearch rgCode rgOutput rgError query filenameFilter
        fzfFilename fzfContent).result = .ok [] ∧
    (executeSearch rgCode rgOutput rgError query filenameFilter
        fzfFilename fzfContent).contentFzfSpawned = false := by
  have hrg' : ¬ (rgCode ≠ 0 ∧ rgCode ≠ 1) := by
    rcases hrg with rfl | rfl <;> simp
  unfold executeSearch
  rw [if_neg hrg']
  by_cases h1 : jsTrim rgOutput = []
  · rw [if_pos h1]
    exact ⟨rfl, rfl⟩
  · rw [if_neg h1]
    by_cases h2 : contentLinesOf rgOutput = []
    · rw [if_pos h2]
      exact ⟨rfl, rfl⟩
    · rw [if_neg h2]
      dsimp only
      rw [if_pos hff]
      have hcode := (hzero (List.intercalate ['\n']
        (filenamesOf (lineMappingOf rgOutput)))).1
      have hmat := (hzero (List.intercalate ['\n']
        (filenamesOf (lineMappingOf rgOutput)))).2
      rw [if_neg (by rcases hcode with h | h <;> simp [h])]
      rw [if_pos hmat, if_pos rfl]
      exact ⟨rfl, rfl⟩

/-- C2 witness: a concrete search with one candidate line, a non-blank
filename filter, and a filename stage exiting 1 with empty output. -/
theorem claimC2_witness :
    (executeSearch 0 "a.ts:1:x".toList [] "q".toList "zz".toList
        (fun _ => ⟨1, [], []⟩) (fun _ => ⟨0, "x".toList, []⟩)).result = .ok [] ∧
    (executeSearch 0 "a.ts:1:x".toList [] "q".toList "zz".toList
        (fun _ => ⟨1, [], []⟩) (fun _ => ⟨0, "x".toList, []⟩)).contentFzfSpawned
      = false :=
  claimC2 0 "a.ts:1:x".toList [] "q".toList "zz".toList
    (fun _ => ⟨1, [], []⟩) (fun _ => ⟨0, "x".toList, []⟩)
    (Or.inl rfl) (by decide) (fun s => ⟨Or.inr rfl, rfl⟩)

/-- C4: if the content query is blank, the content stage returns every line
that survived the filename stage, as-is and in order (and `executeSearch`
does so end to end when both filter and query are blank); if the query is
non-blank but no content lines remain, the result is empty. -/
theorem claimC4 :
    (∀ (query : List Char) (fz : List Char → FzfRun)
        (fm : List (Nat × List Char)) (sp : Bool),
      jsTrim query = [] →
      contentStage query fz fm sp = ⟨.ok (fm.map (·.2)), sp, false⟩) ∧
    (∀ (query : List Char) (fz : List Char → FzfRun)
        (fm : List (Nat × List Char)) (sp : Bool),
      jsTrim query ≠ [] → (buildFiltered 0 fm).1 = [] →
      contentStage query fz fm sp = ⟨.ok [], sp, false⟩) ∧
    (∀ (rgCode : Int) (rgOutput rgError query filenameFilter : List Char)
        (fzfFilename fzfContent : List Char → FzfRun),
      (rgCode = 0 ∨ rgCode = 1) → jsTrim rgOutput ≠ [] →
      contentLinesOf rgOutput ≠ [] →
      jsTrim filenameFilter = [] → jsTrim query = [] →
      (executeSearch rgCode rgOutput rgError query filenameFilter
          fzfFilename fzfContent).result
        = .ok ((lineMappingOf rgOutput).map (·.2))) := by
  refine ⟨contentStage_blank_query, contentStage_no_content, ?_⟩
  intro rgCode rgOutput rgError query filenameFilter fzfFilename fzfContent
    hrg h1 h2 hf hq
  have hrg' : ¬ (rgCode ≠ 0 ∧ rgCode ≠ 1) := by
    rcases hrg with rfl | rfl <;> simp
  unfold executeSearch
  rw [if_neg hrg', if_neg h1, if_neg h2]
  dsimp only
  rw [if_neg (by simp [hf]), contentStage_blank_query _ _ _ _ hq]

/-- C4 witness: a blank query over one surviving mapped line returns that
line, and a non-blank query over an empty mapping returns the empty list. -/
theorem claimC4_witness :
    contentStage [] (fun _ => ⟨0, [], []⟩) [(0, "a:1:x".toList)] false
      = ⟨.ok ["a:1:x".toList], false, false⟩ ∧
    contentStage "q".toList (fun _ => ⟨0, [], []⟩) [] true
      = ⟨.ok [], true, false⟩ := by
  constructor
  · have h := claimC4.1 [] (fun _ => ⟨0, [], []⟩) [(0, "a:1:x".toList)] false rfl
    simpa using h
  · exact claimC4.2.1 "q".toList (fun _ => ⟨0, [], []⟩) [] true (by decide) rfl

/-- C7: each of the three external invocations fails exactly when its exit
code is neither 0 nor 1 — a bad ripgrep code rejects with the ripgrep
stderr before anything else runs, a bad filename-fzf code rejects with that
process's stderr, a bad content-fzf code rejects with that process's
stderr, and whenever all exit codes lie in the accepted set 0 or 1 (1 being
the normal zero-match outcome) the search resolves successfully. -/
theorem claimC7 :
    (∀ (rgCode : Int) (rgOutput rgError query filenameFilter : List Char)
        (fzfFilename fzfContent : List Char → FzfRun),
      rgCode ≠ 0 → rgCode ≠ 1 →
      executeSearch rgCode rgOutput rgError query filenameFilter
          fzfFilename fzfContent
        = ⟨.error (.rgFailed rgError), false, false⟩) ∧
    (∀ (rgCode : Int) (rgOutput rgError query filenameFilter : List Char)
        (fzfFilename fzfContent : List Char → FzfRun),
      (rgCode = 0 ∨ rgCode = 1) → jsTrim rgOutput ≠ [] →
      contentLinesOf rgOutput ≠ [] → jsTrim filenameFilter ≠ [] →
      (fzfFilename (List.intercalate ['\n']
          (filenamesOf (lineMappingOf rgOutput)))).exitCode ≠ 0 →
      (fzfFilename (List.intercalate ['\n']
          (filenamesOf (lineMappingOf rgOutput)))).exitCode ≠ 1 →
      executeSearch rgCode rgOutput rgError query filenameFilter
          fzfFilename fzfContent
        = ⟨.error (.fzfFilenameFailed (fzfFilename (List.intercalate ['\n']
            (filenamesOf (lineMappingOf rgOutput)))).stderr), true, false⟩) ∧
    (∀ (rgCode : Int) (rgOutput rgError query filenameFilter : List Char)
        (fzfFilename fzfContent : List Char → FzfRun),
      (rgCode = 0 ∨ rgCode = 1) → jsTrim rgOutput ≠ [] →
      contentLinesOf rgOutput ≠ [] → jsTrim filenameFilter = [] →
      jsTrim query ≠ [] → (buildFiltered 0 (lineMappingOf rgOutput)).1 ≠ [] →
      (fzfContent (List.intercalate ['\n']
          (buildFiltered 0 (lineMappingOf rgOutput)).1)).exitCode ≠ 0 →
      (fzfContent (List.intercalate ['\n']
          (buildFiltered 0 (lineMappingOf rgOutput)).1)).exitCode ≠ 1 →
      executeSearch rgCode rgOutput rgError query filenameFilter
          fzfFilename fzfContent
        = ⟨.error (.fzfFailed (fzfContent (List.intercalate ['\n']
            (buildFiltered 0 (lineMappingOf rgOutput)).1)).stderr), false, true⟩) ∧
    (∀ (rgCode : Int) (rgOutput rgError query filenameFilter : List Char)
        (fzfFilename fzfContent : List Char → FzfRun),
      (rgCode = 0 ∨ rgCode = 1) →
      (∀ s, (fzfFilename s).exitCode = 0 ∨ (fzfFilename s).exitCode = 1) →
      (∀ s, (fzfContent s).exitCode = 0 ∨ (fzfContent s).exitCode = 1) →
      ∃ rs, (executeSearch rgCode rgOutput rgError query filenameFilter
          fzfFilename fzfContent).result = .ok rs) := by
  refine ⟨?_, ?_, ?_, ?_⟩
  · intro rgCode rgOutput rgError query filenameFilter fzfFilename fzfContent h0 h1
    unfold executeSearch
    rw [if_pos ⟨h0, h1⟩]
  · intro rgCode rgOutput rgError query filenameFilter fzfFilename fzfContent
      hrg h1 h2 hff hc0 hc1
    have hrg' : ¬ (rgCode ≠ 0 ∧ rgCode ≠ 1) := by
      rcases hrg with rfl | rfl <;> simp
    unfold executeSearch
    rw [if_neg hrg', if_neg h1, if_neg h2]
    dsimp only
    rw [if_pos hff, if_pos ⟨hc0, hc1⟩]
  · intro rgCode rgOutput rgError query filenameFilter fzfFilename fzfContent
      hrg h1 h2 hf hq hb hc0 hc1
    have hrg' : ¬ (rgCode ≠ 0 ∧ rgCode ≠ 1) := by
      rcases hrg with rfl | rfl <;> simp
    unfold executeSearch
    rw [if_neg hrg', if_neg h1, if_neg h2]
    dsimp only
    rw [if_neg (by simp [hf])]
    unfold contentStage
    dsimp only
    rw [if_neg (by simp [hb, hq]), if_pos ⟨hc0, hc1⟩]
  · intro rgCode rgOutput rgError query filenameFilter fzfFilename fzfContent
      hrg hF hC
    have hrg' : ¬ (rgCode ≠ 0 ∧ rgCode ≠ 1) := by
      rcases hrg with rfl | rfl <;> simp
    unfold executeSearch
    rw [if_neg hrg']
    by_cases h1 : jsTrim rgOutput = []
    · rw [if_pos h1]
      exact ⟨_, rfl⟩
    · rw [if_neg h1]
      by_cases h2 : contentLinesOf rgOutput = []
      · rw [if_pos h2]
        exact ⟨_, rfl⟩
      · rw [if_neg h2]
        dsimp only
        by_cases hff : jsTrim filenameFilter ≠ []
        · rw [if_pos hff]
          rw [if_neg (by
            rcases hF (List.intercalate ['\n']
              (filenamesOf (lineMappingOf rgOutput))) with h | h <;> simp [h])]
          by_cases hfm : (if fzfLinesOf (fzfFilename (List.intercalate ['\n']
              (filenamesOf (lineMappingOf rgOutput)))).stdout = [] then
                ([] : List (Nat × List Char))
              else (lineMappingOf rgOutput).filter fun e =>
                match leadingFilename e.2 with
                | some f => decide (f ∈ fzfLinesOf (fzfFilename (List.intercalate ['\n']
                    (filenamesOf (lineMappingOf rgOutput)))).stdout)
                | none => false) = []
          · rw [if_pos hfm]
            exact ⟨_, rfl⟩
          · rw [if_neg hfm]
            exact contentStage_ok _ _ _ _ hC
        · rw [if_neg hff]
          exact contentStage_ok _ _ _ _ hC

/-- C7 witness: each exit-code behaviour at a concrete input — ripgrep
exiting 2, the filename fzf exiting 2, the content fzf exiting 2, and an
all-accepted run in which both fzf stages exit 1. -/
theorem claimC7_witness :
    executeSearch 2 "a.ts:1:x".toList "rerr".toList "q".toList []
        (fun _ => ⟨0, [], []⟩) (fun _ => ⟨0, [], []⟩)
      = ⟨.error (.rgFailed "rerr".toList), false, false⟩ ∧
    executeSearch 0 "a.ts:1:x".toList [] "q".toList "zz".toList
        (fun _ => ⟨2, [], "ferr".toList⟩) (fun _ => ⟨0, [], []⟩)
      = ⟨.error (.fzfFilenameFailed "ferr".toList), true, false⟩ ∧
    executeSearch 0 "a.ts:1:x".toList [] "q".toList []
        (fun _ => ⟨0, [], []⟩) (fun _ => ⟨2, [], "cerr".toList⟩)
      = ⟨.error (.fzfFailed "cerr".toList), false, true⟩ ∧
    ∃ rs, (executeSearch 1 "a.ts:1:x".toList [] "q".toList []
        (fun _ => ⟨1, [], []⟩) (fun _ => ⟨1, [], []⟩)).result = .ok rs := by
  refine ⟨?_, ?_, ?_, ?_⟩
  · exact claimC7.1 2 "a.ts:1:x".toList "rerr".toList "q".toList []
      (fun _ => ⟨0, [], []⟩) (fun _ => ⟨0, [], []⟩) (by decide) (by decide)
  · exact claimC7.2.1 0 "a.ts:1:x".toList [] "q".toList "zz".toList
      (fun _ => ⟨2, [], "ferr".toList⟩) (fun _ => ⟨0, [], []⟩)
      (Or.inl rfl) (by decide) (by decide) (by decide) (by decide) (by decide)
  · exact claimC7.2.2.1 0 "a.ts:1:x".toList [] "q".toList []
      (fun _ => ⟨0, [], []⟩) (fun _ => ⟨2, [], "cerr".toList⟩)
      (Or.inl rfl) (by decide) (by decide) (by decide) (by decide) (by decide)
      (by decide) (by decide)
  · exact claimC7.2.2.2 1 "a.ts:1:x".toList [] "q".toList []
      (fun _ => ⟨1, [], []⟩) (fun _ => ⟨1, [], []⟩)
      (Or.inr rfl) (fun _ => Or.inr rfl) (fun _ => Or.inr rfl)


/-! ### Pager helper lemmas -/

theorem loadMore_allRaw (k : Nat) (s : PagerState) :
    (loadMoreResults k s).2.allRawResults = s.allRawResults := by
  unfold loadMoreResults
  dsimp only
  split
  · rfl
  · rfl

theorem loadMore_wp (k : Nat) (s : PagerState) :
    (loadMoreResults k s).2.workspacePath = s.workspacePath := by
  unfold loadMoreResults
  dsimp only
  split
  · rfl
  · rfl

theorem loadMore_displayed_mono (k : Nat) (s : PagerState) :
    s.currentlyDisplayed ≤ (loadMoreResults k s).2.currentlyDisplayed := by
  unfold loadMoreResults
  dsimp only
  split
  · exact Nat.le_refl _
  · next h =>
    dsimp only
    omega

theorem loadMore_displayed_le (k : Nat) (s : PagerState)
    (h : s.currentlyDisplayed ≤ s.allRawResults.length) :
    (loadMoreResults k s).2.currentlyDisplayed ≤ s.allRawResults.length := by
  unfold loadMoreResults
  dsimp only
  split
  · exact h
  · next h2 =>
    dsimp only
    omega

theorem loadMore_saturated (k : Nat) (s : PagerState)
    (h : s.allRawResults.length ≤ s.currentlyDisplayed) :
    loadMoreResults k s = (false, s) := by
  unfold loadMoreResults
  dsimp only
  rw [if_pos h]

theorem setAll_allRaw (lines : List (List Char)) (wp : List Char) (s : PagerState) :
    (setAllResults lines wp s).allRawResults = lines := by
  unfold setAllResults
  rw [loadMore_allRaw]

theorem setAll_wp (lines : List (List Char)) (wp : List Char) (s : PagerState) :
    (setAllResults lines wp s).workspacePath = wp := by
  unfold setAllResults
  rw [loadMore_wp]

theorem setAll_displayed (lines : List (List Char)) (wp : List Char) (s : PagerState) :
    (setAllResults lines wp s).currentlyDisplayed = min s.batchSize lines.length := by
  unfold setAllResults loadMoreResults
  dsimp only
  split
  · next h =>
    dsimp only
    omega
  · next h =>
    dsimp only
    omega

theorem applyLoads_cons (k : Nat) (ks : List Nat) (s : PagerState) :
    applyLoads (k :: ks) s = applyLoads ks (loadMoreResults k s).2 := rfl

theorem applyLoads_inv (ks : List Nat) :
    ∀ s : PagerState, s.currentlyDisplayed ≤ s.allRawResults.length →
      (applyLoads ks s).currentlyDisplayed ≤ (applyLoads ks s).allRawResults.length ∧
      (applyLoads ks s).allRawResults = s.allRawResults := by
  induction ks with
  | nil =>
    intro s h
    exact ⟨h, rfl⟩
  | cons k ks ih =>
    intro s h
    rw [applyLoads_cons]
    have h1 := loadMore_displayed_le k s h
    have h2 := loadMore_allRaw k s
    obtain ⟨ha, hb⟩ := ih (loadMoreResults k s).2 (by rw [h2]; exact h1)
    exact ⟨ha, by rw [hb, h2]⟩

/-! ### Grouping helper lemmas -/

theorem lookupGroup_addToGroups (f : List Char)
    (g : List (List Char × List SearchResult)) (r : SearchResult) :
    lookupGroup f (addToGroups g r)
      = lookupGroup f g ++ (if r.file = f then [r] else []) := by
  induction g with
  | nil =>
    by_cases h : r.file = f <;> simp [addToGroups, lookupGroup, h]
  | cons e g ih =>
    obtain ⟨kk, ms⟩ := e
    unfold addToGroups
    by_cases h1 : kk = r.file
    · rw [if_pos h1]
      unfold lookupGroup
      by_cases h2 : kk = f
      · rw [if_pos h2, if_pos h2, if_pos (h1.symm.trans h2)]
      · rw [if_neg h2, if_neg h2, if_neg (fun hh => h2 (h1.trans hh)),
          List.append_nil]
    · rw [if_neg h1]
      unfold lookupGroup
      by_cases h2 : kk = f
      · rw [if_pos h2, if_pos h2, if_neg (fun hh => h1 (h2.trans hh.symm)),
          List.append_nil]
      · rw [if_neg h2, if_neg h2, ih]

theorem lookupGroup_foldl (f : List Char) (rs : List SearchResult) :
    ∀ acc : List (List Char × List SearchResult),
      lookupGroup f (rs.foldl addToGroups acc)
        = lookupGroup f acc ++ rs.filter (fun r => r.file == f) := by
  induction rs with
  | nil =>
    intro acc
    simp
  | cons r rs ih =>
    intro acc
    rw [List.foldl_cons, ih, lookupGroup_addToGroups]
    by_cases h : r.file = f
    · rw [List.filter_cons_of_pos (by simp [h]), if_pos h]
      simp
    · rw [List.filter_cons_of_neg (by simp [h]), if_neg h]
      simp

theorem keys_addToGroups_mem (g : List (List Char × List SearchResult))
    (r : SearchResult) (h : r.file ∈ g.map Prod.fst) :
    (addToGroups g r).map Prod.fst = g.map Prod.fst := by
  induction g with
  | nil => simp at h
  | cons e g ih =>
    obtain ⟨kk, ms⟩ := e
    rw [List.map_cons] at h
    by_cases h1 : kk = r.file
    · simp [addToGroups, h1]
    · have h' : r.file ∈ g.map Prod.fst := by
        rcases List.mem_cons.mp h with hh | hh
        · exact absurd hh.symm h1
        · exact hh
      simp [addToGroups, h1, ih h']

theorem keys_addToGroups_not_mem (g : List (List Char × List SearchResult))
    (r : SearchResult) (h : r.file ∉ g.map Prod.fst) :
    (addToGroups g r).map Prod.fst = g.map Prod.fst ++ [r.file] := by
  induction g with
  | nil => simp [addToGroups]
  | cons e g ih =>
    obtain ⟨kk, ms⟩ := e
    have h1 : ¬ kk = r.file := by
      intro hh
      exact h (by simp [hh])
    have h' : r.file ∉ g.map Prod.fst := fun hh => h (by simp [hh])
    simp [addToGroups, h1, ih h']

theorem dedupFirstAux_congr {α : Type} [DecidableEq α] :
    ∀ (l s1 s2 : List α), (∀ a, a ∈ s1 ↔ a ∈ s2) →
      dedupFirstAux s1 l = dedupFirstAux s2 l := by
  intro l
  induction l with
  | nil =>
    intro s1 s2 h
    rfl
  | cons x xs ih =>
    intro s1 s2 h
    unfold dedupFirstAux
    by_cases hx : x ∈ s1
    · rw [if_pos hx, if_pos ((h x).mp hx)]
      exact ih s1 s2 h
    · rw [if_neg hx, if_neg (fun hh => hx ((h x).mpr hh))]
      rw [ih (x :: s1) (x :: s2) (by intro a; simp [h a])]

theorem keys_foldl (rs : List SearchResult) :
    ∀ acc : List (List Char × List SearchResult),
      (rs.foldl addToGroups acc).map Prod.fst
        = acc.map Prod.fst
            ++ dedupFirstAux (acc.map Prod.fst) (rs.map fun r => r.file) := by
  induction rs with
  | nil =>
    intro acc
    simp [dedupFirstAux]
  | cons r rs ih =>
    intro acc
    rw [List.foldl_cons, List.map_cons]
    unfold dedupFirstAux
    by_cases h : r.file ∈ acc.map Prod.fst
    · rw [if_pos h, ih, keys_addToGroups_mem acc r h]
    · rw [if_neg h, ih (addToGroups acc r), keys_addToGroups_not_mem acc r h,
        List.append_assoc]
      congr 1
      rw [List.singleton_append]
      congr 1
      exact dedupFirstAux_congr _ _ _ (by intro a; simp [or_comm])

theorem groupSizes_addToGroups (g : List (List Char × List SearchResult))
    (r : SearchResult) : groupSizes (addToGroups g r) = groupSizes g + 1 := by
  induction g with
  | nil => simp [addToGroups, groupSizes]
  | cons e g ih =>
    obtain ⟨kk, ms⟩ := e
    by_cases h : kk = r.file
    · simp [addToGroups, h, groupSizes]
      omega
    · simp only [addToGroups, if_neg h, groupSizes, List.map_cons, List.sum_cons]
      have := ih
      simp only [groupSizes] at this
      omega

theorem groupSizes_foldl (rs : List SearchResult) :
    ∀ acc : List (List Char × List SearchResult),
      groupSizes (rs.foldl addToGroups acc) = groupSizes acc + rs.length := by
  induction rs with
  | nil =>
    intro acc
    simp
  | cons r rs ih =>
    intro acc
    rw [List.foldl_cons, ih, groupSizes_addToGroups]
    simp
    omega

theorem loadMore_results_inv (k : Nat) (s : PagerState)
    (h : s.results = groupsOf s.workspacePath
          (s.allRawResults.take s.currentlyDisplayed)) :
    (loadMoreResults k s).2.results
      = groupsOf s.workspacePath
          (s.allRawResults.take (loadMoreResults k s).2.currentlyDisplayed) := by
  unfold loadMoreResults
  dsimp only
  split
  · exact h
  · next hlt =>
    dsimp only
    rw [h]
    unfold groupsOf
    have hmin : min (s.currentlyDisplayed + k) s.allRawResults.length
        = s.currentlyDisplayed
          + (min (s.currentlyDisplayed + k) s.allRawResults.length
              - s.currentlyDisplayed) := by omega
    conv_rhs => rw [hmin, List.take_add, List.map_append, List.foldl_append]

theorem setAll_results (lines : List (List Char)) (wp : List Char) (s : PagerState) :
    (setAllResults lines wp s).results
      = groupsOf wp (lines.take (setAllResults lines wp s).currentlyDisplayed) := by
  unfold setAllResults
  exact loadMore_results_inv s.batchSize
    { s with allRawResults := lines, workspacePath := wp,
             results := [], currentlyDisplayed := 0 } (by simp [groupsOf])

/-! ### Claim C8 -/

/-- C8: `setAllResults` replaces the raw result set and immediately reveals
`min(100, total)` items (from the freshly constructed pager, whose batch
size is 100); `loadMoreResults` never decreases the displayed count, never
changes the raw set, keeps the displayed count within the total, and once
the displayed count equals the total every further call returns `false`
and leaves the state untouched; along any sequence of calls after a
`setAllResults` the displayed count never exceeds the total. -/
theorem claimC8 (lines : List (List Char)) (wp : List Char) (s : PagerState)
    (k : Nat) (ks : List Nat) :
    ((setAllResults lines wp initialPager).allRawResults = lines ∧
      (setAllResults lines wp initialPager).currentlyDisplayed
        = min 100 lines.length) ∧
    s.currentlyDisplayed ≤ (loadMoreResults k s).2.currentlyDisplayed ∧
    (loadMoreResults k s).2.allRawResults = s.allRawResults ∧
    (s.currentlyDisplayed ≤ s.allRawResults.length →
      (loadMoreResults k s).2.currentlyDisplayed ≤ s.allRawResults.length) ∧
    (s.currentlyDisplayed = s.allRawResults.length →
      loadMoreResults k s = (false, s)) ∧
    (applyLoads ks (setAllResults lines wp s)).currentlyDisplayed
      ≤ lines.length := by
  refine ⟨⟨setAll_allRaw lines wp initialPager, ?_⟩,
    loadMore_displayed_mono k s, loadMore_allRaw k s,
    fun h => loadMore_displayed_le k s h,
    fun h => loadMore_saturated k s (Nat.le_of_eq h.symm), ?_⟩
  · rw [setAll_displayed]
    rfl
  · have h0 : (setAllResults lines wp s).currentlyDisplayed
        ≤ (setAllResults lines wp s).allRawResults.length := by
      rw [setAll_displayed, setAll_allRaw]
      omega
    obtain ⟨ha, hb⟩ := applyLoads_inv ks _ h0
    rw [hb, setAll_allRaw] at ha
    exact ha

/-- C8 witness: after `setAllResults` with one raw line the cursor sits at
the total, so a further `loadMoreResults` returns `false` and changes
nothing. -/
theorem claimC8_witness :
    loadMoreResults 5 (setAllResults ["a:1:x".toList] [] initialPager)
      = (false, setAllResults ["a:1:x".toList] [] initialPager) :=
  (claimC8 ["a:1:x".toList] [] (setAllResults ["a:1:x".toList] [] initialPager)
    5 []).2.2.2.2.1 (by decide)

/-! ### Claim C9 -/

/-- C9: the pager's grouping always reflects exactly the first `revealed`
raw lines — `setAllResults` establishes this and `loadMoreResults`
preserves it — and on any revealed prefix the group of a file `f` is
exactly the ordered list of parsed results whose resolved path is `f` (so
its match count is the number of revealed items with that path), while the
file groups appear in first-revealed order. -/
theorem claimC9 (lines : List (List Char)) (wp f : List Char) (s : PagerState)
    (k : Nat) (pre : List (List Char)) :
    ((setAllResults lines wp s).results
        = groupsOf wp (lines.take (setAllResults lines wp s).currentlyDisplayed)) ∧
    (s.results = groupsOf s.workspacePath
        (s.allRawResults.take s.currentlyDisplayed) →
      (loadMoreResults k s).2.results
        = groupsOf (loadMoreResults k s).2.workspacePath
            ((loadMoreResults k s).2.allRawResults.take
              (loadMoreResults k s).2.currentlyDisplayed)) ∧
    (lookupGroup f (groupsOf wp pre)
        = (pre.map (toSearchResult wp)).filter (fun r => r.file == f)) ∧
    ((lookupGroup f (groupsOf wp pre)).length
        = ((pre.map (toSearchResult wp)).map (fun r => r.file)).count f) ∧
    ((groupsOf wp pre).map Prod.fst
        = dedupFirst ((pre.map (toSearchResult wp)).map fun r => r.file)) := by
  refine ⟨setAll_results lines wp s, ?_, ?_, ?_, ?_⟩
  · intro h
    rw [loadMore_wp, loadMore_allRaw]
    exact loadMore_results_inv k s h
  · unfold groupsOf
    rw [lookupGroup_foldl]
    simp [lookupGroup]
  · unfold groupsOf
    rw [lookupGroup_foldl]
    simp only [lookupGroup, List.nil_append]
    rw [List.count_eq_countP, List.countP_map]
    rw [List.countP_eq_length_filter]
    rfl
  · unfold groupsOf dedupFirst
    rw [keys_foldl]
    simp

/-- C9 witness: the invariant applied to a fresh pager, and the grouped
view of three concrete lines, two of which share the file `a`. -/
theorem claimC9_witness :
    ((loadMoreResults 1 initialPager).2.results
      = groupsOf (loadMoreResults 1 initialPager).2.workspacePath
          ((loadMoreResults 1 initialPager).2.allRawResults.take
            (loadMoreResults 1 initialPager).2.currentlyDisplayed)) ∧
    lookupGroup (pathJoin "/w".toList "a".toList)
        (groupsOf "/w".toList
          ["a:1:x".toList, "b:2:y".toList, "a:3:z".toList])
      = (["a:1:x".toList, "b:2:y".toList, "a:3:z".toList].map
          (toSearchResult "/w".toList)).filter
          (fun r => r.file == pathJoin "/w".toList "a".toList) := by
  constructor
  · exact (claimC9 [] [] [] initialPager 1 []).2.1 (by rfl)
  · exact (claimC9 [] "/w".toList (pathJoin "/w".toList "a".toList)
      initialPager 1
      ["a:1:x".toList, "b:2:y".toList, "a:3:z".toList]).2.2.1

/-! ### Claim C10 -/

theorem splitOnChar_no_sep (sep : Char) (l : List Char) (h : sep ∉ l) :
    splitOnChar sep l = [l] := by
  induction l with
  | nil => rfl
  | cons c cs ih =>
    have hc : ¬ ((c == sep) = true) := by
      simp only [beq_iff_eq]
      intro hh
      exact h (by simp [hh])
    unfold splitOnChar
    rw [if_neg hc, ih fun hh => h (List.mem_cons_of_mem c hh)]

theorem parseSearchLine_no_colon (raw : List Char) (h : ':' ∉ raw) :
    parseSearchLine raw = none := by
  unfold parseSearchLine
  dsimp only
  have hd : (raw.dropWhile fun c => c != ':') = [] := by
    rw [List.dropWhile_eq_nil_iff]
    intro c hc
    simp
    intro hh
    exact h (hh ▸ hc)
  rw [hd]
  by_cases hfe : ((raw.takeWhile fun c => c != ':').isEmpty : Bool) = true
  · rw [if_pos hfe]
  · rw [if_neg hfe]
    rfl

/-- C10: every raw line in a revealed batch yields exactly one
`SearchResult` and none is dropped (the grouped view holds exactly as many
results as raw lines were revealed, and a reveal of `n` further lines grows
it by exactly `n`); when the strict parse fails the split-on-colon fallback
is used, so a line with no colon segment yields a result with a `NaN`
(`none`) line number and empty content instead of being rejected; an
absolute path is used unchanged while a relative one is joined to the
workspace path. -/
theorem claimC10 (wp raw p : List Char) (pre : List (List Char))
    (s : PagerState) (k : Nat) :
    (groupSizes (groupsOf wp pre) = pre.length) ∧
    (isAbsolutePath p = true → resolvePath wp p = p) ∧
    (isAbsolutePath p = false → resolvePath wp p = pathJoin wp p) ∧
    (parseSearchLine raw = none →
      toSearchResult wp raw
        = ⟨resolvePath wp ((splitOnChar ':' raw).headD []),
           ((splitOnChar ':' raw).get? 1).bind jsParseInt,
           jsTrim (List.intercalate [':'] ((splitOnChar ':' raw).drop 2))⟩) ∧
    (':' ∉ raw →
      toSearchResult wp raw = ⟨resolvePath wp raw, none, []⟩) ∧
    (∀ r, parseSearchLine raw = some r →
      toSearchResult wp raw
        = ⟨resolvePath wp r.file, some (r.line : Int), jsTrim r.content⟩) ∧
    (s.allRawResults.length ≤ s.currentlyDisplayed →
      (loadMoreResults k s).2 = s) ∧
    (s.currentlyDisplayed < s.allRawResults.length →
      groupSizes ((loadMoreResults k s).2.results)
        = groupSizes s.results
          + (min (s.currentlyDisplayed + k) s.allRawResults.length
              - s.currentlyDisplayed)) := by
  refine ⟨?_, ?_, ?_, ?_, ?_, ?_, ?_, ?_⟩
  · unfold groupsOf
    rw [groupSizes_foldl]
    simp [groupSizes]
  · intro h
    unfold resolvePath
    rw [if_pos h]
  · intro h
    unfold resolvePath
    rw [if_neg (by simp [h])]
  · intro hp
    unfold toSearchResult
    rw [hp]
    dsimp only
    cases hg : (splitOnChar ':' raw).get? 1 with
    | none => rfl
    | some p1 => rfl
  · intro h
    have hp : parseSearchLine raw = none := parseSearchLine_no_colon raw h
    unfold toSearchResult
    rw [hp]
    dsimp only
    rw [splitOnChar_no_sep ':' raw h]
    rfl
  · intro r hp
    unfold toSearchResult
    rw [hp]
  · intro h
    rw [loadMore_saturated k s h]
  · intro h
    unfold loadMoreResults
    dsimp only
    rw [if_neg (by omega)]
    dsimp only
    rw [groupSizes_foldl]
    simp only [List.length_map, List.length_take, List.length_drop]
    omega

/-- C10 witness: a colon-free raw line yields a `NaN` line number and empty
content (never an error), an absolute path stays unchanged, and two raw
lines reveal exactly two results. -/
theorem claimC10_witness :
    toSearchResult "/w".toList "abc".toList
      = ⟨resolvePath "/w".toList "abc".toList, none, []⟩ ∧
    resolvePath "/w".toList "/x".toList = "/x".toList ∧
    groupSizes (groupsOf "/w".toList ["a:1:x".toList, "abc".toList]) = 2 := by
  refine ⟨?_, ?_, ?_⟩
  · exact (claimC10 "/w".toList "abc".toList "/x".toList [] initialPager
      0).2.2.2.2.1 (by decide)
  · exact (claimC10 "/w".toList "abc".toList "/x".toList [] initialPager
      0).2.1 (by decide)
  · have h := (claimC10 "/w".toList "abc".toList "/x".toList
      ["a:1:x".toList, "abc".toList] initialPager 0).1
    simpa using h


end Where
